import Mathlib

set_option maxHeartbeats 1000000

/-!
Verification of the coliru manifest execution engine: a shallow embedding of
the tag-rule evaluator (src/tags.rs and src/manifest.rs), the staging path
resolver (src/ssh.rs), the step orchestrator (src/core.rs), the local action
executors (src/local.rs) and the staged-transfer flush (src/ssh.rs), with
theorems settling the specification's claims about them.
-/

/-- Splits a list of characters on a separator character, keeping empty
segments.  This mirrors Rust's `str::split` with a single-character pattern:
splitting the empty string yields one empty segment, and adjacent separators
yield empty segments. -/
def splitOnChar (sep : Char) : List Char → List (List Char)
  | [] => [[]]
  | c :: cs =>
    if c = sep then [] :: splitOnChar sep cs
    else
      match splitOnChar sep cs with
      | [] => [[c]]
      | g :: gs => (c :: g) :: gs

namespace Tags

/-- Checks if a list of tags matches a list of rules.  Translated from
`tags_match` in src/src/tags.rs (lines 16-38): each rule optionally starts
with the negation marker `^`; the remainder is split on `|` into alternative
labels; the rule's `tag_found` is whether some alternative equals some tag;
the whole match fails at the first rule whose `tag_found` equals its
`is_negated` flag. -/
def tags_match (rules tags : List String) : Bool :=
  match rules with
  | [] => true
  | rule :: rest =>
    let is_negated := rule.data.head? == some '^'
    let r := if is_negated then rule.data.drop 1 else rule.data
    let tag_found := (splitOnChar '|' r).any (fun sub => tags.any (fun tag => tag.data == sub))
    if tag_found == is_negated then false else tags_match rest tags

end Tags

namespace ManifestMod

/-- Checks if a list of tags matches a list of rules.  Translated from
`tags_match` in src/src/manifest.rs (lines 82-102); identical to the
src/src/tags.rs version except that the union separator is `,`. -/
def tags_match (rules tags : List String) : Bool :=
  match rules with
  | [] => true
  | rule :: rest =>
    let is_negated := rule.data.head? == some '^'
    let r := if is_negated then rule.data.drop 1 else rule.data
    let tag_found := (splitOnChar ',' r).any (fun sub => tags.any (fun tag => tag.data == sub))
    if tag_found == is_negated then false else tags_match rest tags

end ManifestMod

/-- Follows the spec's words (§4.1, claim C1), for comparison with the source
functions: strip a leading `^` recording `negated`; split the remainder on the
union separator into alternative labels; `found` is whether some alternative
label equals some tag (exact string comparison); the rule is satisfied iff
`found != negated`. -/
def ruleSatisfiedSpec (sep : Char) (tags : List String) (rule : String) : Bool :=
  let negated := rule.data.head? == some '^'
  let body := if negated then rule.data.drop 1 else rule.data
  let found := (splitOnChar sep body).any (fun alt => tags.any (fun tag => tag.data == alt))
  found != negated

namespace Ssh

/-- A POSIX path in the normal form traversed by Rust's `Path::components` on
Unix: an absoluteness flag (a leading root separator) plus the list of
non-empty components, each kept as a list of characters. -/
structure RPath where
  abs : Bool
  comps : List (List Char)
deriving DecidableEq

/-- The non-empty segments of a character list split on the path separator,
matching the normal components Rust's `Path` iteration yields on Unix. -/
def splitF (l : List Char) : List (List Char) :=
  (splitOnChar '/' l).filter (fun c => c != [])

/-- Reads a path string into its normal form: absolute iff it starts with the
separator, components the non-empty separator-split segments. -/
def parsePath (s : String) : RPath :=
  ⟨s.data.head? == some '/', splitF s.data⟩

/-- Renders a component list back to characters with separators between
components. -/
def renderComps : List (List Char) → List Char
  | [] => []
  | [c] => c
  | c :: cs => c ++ '/' :: renderComps cs

/-- Renders a path back to characters, as `PathBuf::to_string_lossy` displays
the paths built here. -/
def render (p : RPath) : List Char :=
  (if p.abs then ['/'] else []) ++ renderComps p.comps

/-- Models `PathBuf::join`: joining an absolute path replaces the receiver,
joining a relative path appends its components. -/
def join (p q : RPath) : RPath :=
  if q.abs then q else ⟨p.abs, p.comps ++ q.comps⟩

/-- Component-list prefix test (first argument is the candidate prefix). -/
def compsPre : List (List Char) → List (List Char) → Bool
  | [], _ => true
  | _ :: _, [] => false
  | a :: xs, b :: ys => a == b && compsPre xs ys

/-- Models `Path::starts_with`: component-wise prefix, with the root
component compared through the absoluteness flag. -/
def starts_with (p base : RPath) : Bool :=
  (p.abs == base.abs) && compsPre base.comps p.comps

/-- Models `Path::components().next()` as used at src/src/ssh.rs line 80: the
root component `/` for an absolute path, else the first normal component. -/
def firstComponent (p : RPath) : Option (List Char) :=
  if p.abs then some ['/'] else p.comps.head?

/-- Models `Path::strip_prefix` (named without the source's exact name, which
the development's naming scheme reserves): the relative remainder after a
component-wise prefix, or `none`. -/
def stripPrefixP (p base : RPath) : Option RPath :=
  if starts_with p base then some ⟨false, p.comps.drop base.comps.length⟩ else none

/-- Models `shellexpand::tilde_with_context` on the inputs used here: a bare
`~` becomes the supplied home string, a `~/rest` becomes home ++ `/rest`, and
anything else (including `~user` forms, for which no lookup is supplied) is
returned unchanged. -/
def tilde_with_context (dst home : String) : String :=
  match dst.data with
  | ['~'] => home
  | '~' :: '/' :: rest => home ++ String.mk ('/' :: rest)
  | _ => dst

/-- Translated from `resolve_path` in src/src/ssh.rs (lines 31-36): a path
that does not start with a tilde and is relative is anchored under `dir`. -/
def resolve_path (src dir : String) : String :=
  if !(src.data.head? == some '~') && !(src.data.head? == some '/') then
    dir ++ "/" ++ src
  else src

/-- The staging destination computed by `stage_file` in src/src/ssh.rs (lines
50-92), separated from the final `copy_file` call it feeds: tilde expansion
against the staging tree's `home` subtree, anchoring of relative paths under
that subtree, and re-rooting of other absolute paths under the `root` subtree
with the filesystem root stripped.  The two error branches mirror the
source's `anyhow` failures. -/
def stage_file_dst (dst : String) (staging_dir : RPath) : Except String RPath :=
  let home_dir := join staging_dir (parsePath "home")
  let root_dir := join staging_dir (parsePath "root")
  let home_str := String.mk (render home_dir)
  let d0 := parsePath (tilde_with_context dst home_str)
  let d1 := join home_dir d0
  if starts_with d1 home_dir then Except.ok d1
  else
    match firstComponent d1 with
    | none => Except.error "Failed to get root"
    | some x =>
      let root := join (parsePath (String.mk x)) (parsePath "/")
      match stripPrefixP d1 root with
      | none => Except.error "Failed to strip root"
      | some rest => Except.ok (join root_dir rest)

/-- Well-formed component lists: every component non-empty and free of the
separator, the invariant of parsed paths. -/
def wfComps (cs : List (List Char)) : Bool :=
  cs.all (fun c => decide (c ≠ []) && decide ('/' ∉ c))

end Ssh

namespace Ssh

/-- The contents of the two top-level staging subtrees: `none` models an
absent subtree, `some items` an existing subtree with the given directory
entries. -/
structure Staging where
  home : Option (List String)
  root : Option (List String)
deriving DecidableEq

/-- The transfer environment: the exit status of the `scp` invocation for a
given item path, remote destination and host (`0` = success), and whether
`remove_dir_all` succeeds on a given directory. -/
structure TransferEnv where
  scp : String → String → String → Nat
  removeOk : String → Bool

/-- Translated from `send_dir` (src/src/ssh.rs lines 131-159): the directory
entries are sent one `scp` invocation per item; the first non-zero exit
status aborts with an error naming it.  Returns the result together with the
trace of `(item path, remote destination)` transfer invocations. -/
def send_dir (env : TransferEnv) (src : String) (items : List String)
    (dst host : String) : Except String Unit × List (String × String) :=
  match items with
  | [] => (Except.ok (), [])
  | it :: rest =>
    let p := src ++ "/" ++ it
    let st := env.scp p dst host
    if st ≠ 0 then
      (Except.error ("SCP terminated unsuccessfully: exit status: " ++ toString st),
       [(p, dst)])
    else
      let r := send_dir env src rest dst host
      (r.1, (p, dst) :: r.2)

/-- The `root` half of `send_staged_files` (src/src/ssh.rs lines 112-119):
if the `root` subtree exists, send its contents to the remote filesystem
root then delete it. -/
def send_staged_root (env : TransferEnv) (staging_dir : String) (s : Staging)
    (host : String) : Except String Unit × Staging × List (String × String) :=
  match s.root with
  | some items =>
    let r := send_dir env (staging_dir ++ "/root") items "/" host
    match r.1 with
    | Except.error e => (Except.error e, s, r.2)
    | Except.ok _ =>
      if env.removeOk (staging_dir ++ "/root") then
        (Except.ok (), { s with root := none }, r.2)
      else
        (Except.error "Failed to remove staging dir", s, r.2)
  | none => (Except.ok (), s, [])

/-- Translated from `send_staged_files` (src/src/ssh.rs lines 103-121): for
each of the two subtrees that exists, send its contents item-by-item to the
corresponding remote root (`~` for `home`, `/` for `root`) and delete the
subtree afterwards; any failure propagates immediately. -/
def send_staged_files (env : TransferEnv) (staging_dir : String) (s : Staging)
    (host : String) : Except String Unit × Staging × List (String × String) :=
  match s.home with
  | some items =>
    let r := send_dir env (staging_dir ++ "/home") items "~" host
    match r.1 with
    | Except.error e => (Except.error e, s, r.2)
    | Except.ok _ =>
      if env.removeOk (staging_dir ++ "/home") then
        let r2 := send_staged_root env staging_dir { s with home := none } host
        (r2.1, r2.2.1, r.2 ++ r2.2.2)
      else
        (Except.error "Failed to remove staging dir", s, r.2)
  | none => send_staged_root env staging_dir s host

end Ssh

namespace Core

/-- The options of a copy or link command (src/src/manifest.rs lines 12-18). -/
structure CopyLinkOptions where
  src : String
  dst : String
deriving DecidableEq

/-- The options of a run command (src/src/manifest.rs lines 22-33).  The
source's `prefix` and `postfix` fields are named `pfx` and `sfx` here. -/
structure RunOptions where
  src : String
  pfx : String
  sfx : String
deriving DecidableEq

/-- A manifest step (src/src/manifest.rs lines 37-53). -/
structure Step where
  copy : List CopyLinkOptions
  link : List CopyLinkOptions
  run : List RunOptions
  tags : List String
deriving DecidableEq

/-- A parsed manifest (src/src/manifest.rs lines 65-71). -/
structure Manifest where
  steps : List Step
  base_dir : String
deriving DecidableEq

/-- Modelled from the spec: `filter_manifest_steps` is imported by
src/src/core.rs (line 7) from the manifest module, but its definition is
absent from src/.  Per spec section 4.3 step 1, a step whose tags fail the
rule check (section 4.1) is skipped and produces no output and no side
effects, so the surviving steps are those whose tags match the rules. -/
def filter_manifest_steps (m : Manifest) (tag_rules : List String) : Manifest :=
  { m with steps := m.steps.filter (fun s => ManifestMod.tags_match tag_rules s.tags) }

/-- The base directory for SSH installs (src/src/core.rs line 14). -/
def SSH_INSTALL_DIR : String := ".coliru"

/-- The observable effectful primitives the orchestrator can request:
the local copy and symlink executors, remote staging, the staged-files
transfer, and local or remote command execution. -/
inductive Action where
  | copyFile (src dst : String)
  | linkFile (src dst : String)
  | stageFile (src dst staging_dir : String)
  | sendStagedFiles (staging_dir host : String)
  | runCommand (cmd : String)
  | sendCommand (cmd host : String)
deriving DecidableEq

/-- The environment an orchestrator run executes against: the outcome of
every primitive action (`true` = `Ok`), whether the temporary staging
directory could be created, the path it was created at, and whether the
change into the manifest's base directory succeeded. -/
structure Env where
  ok : Action → Bool
  tempdirOk : Bool
  tempdirPath : String
  setCurrentDirOk : Bool

/-- Whether some action in a trace failed under an environment; this models
the accumulated `errors` boolean of src/src/core.rs. -/
def failed (env : Env) (t : List Action) : Bool :=
  t.any (fun a => !(env.ok a))

/-- The per-entry loop of `execute_copies` (src/src/core.rs lines 90-114):
resolve the destination when installing over SSH, announce, skip the action
under dry-run, otherwise copy locally or stage remotely, folding each
failure into the error flag.  Returns the error flag and the trace of
attempted actions. -/
def copies_loop (env : Env) (copies : List CopyLinkOptions) (host : String)
    (staging_dir : String) (dry_run : Bool) : Bool × List Action :=
  match copies with
  | [] => (false, [])
  | c :: rest =>
    let _dst := if host ≠ "" then Ssh.resolve_path c.dst ("~/" ++ SSH_INSTALL_DIR)
                else c.dst
    if dry_run then copies_loop env rest host staging_dir dry_run
    else
      let a := if host == "" then Action.copyFile c.src _dst
               else Action.stageFile c.src _dst staging_dir
      let r := copies_loop env rest host staging_dir dry_run
      ((!(env.ok a) || r.1), a :: r.2)

/-- Translated from `execute_copies` (src/src/core.rs lines 85-122): the
per-entry loop followed, unless dry-run, by a `send_staged_files` call whose
failure is also folded into the error flag. -/
def execute_copies (env : Env) (copies : List CopyLinkOptions) (host : String)
    (staging_dir : String) (dry_run : Bool) : Bool × List Action :=
  let r := copies_loop env copies host staging_dir dry_run
  if dry_run then r
  else
    let a := Action.sendStagedFiles staging_dir host
    ((r.1 || !(env.ok a)), r.2 ++ [a])

/-- Translated from `execute_links` (src/src/core.rs lines 126-140): each
entry is announced, skipped under dry-run, and otherwise executed as a
symbolic link, folding each failure into the error flag. -/
def execute_links (env : Env) (links : List CopyLinkOptions)
    (dry_run : Bool) : Bool × List Action :=
  match links with
  | [] => (false, [])
  | l :: rest =>
    if dry_run then execute_links env rest dry_run
    else
      let a := Action.linkFile l.src l.dst
      let r := execute_links env rest dry_run
      ((!(env.ok a) || r.1), a :: r.2)

/-- The per-entry loop of `execute_runs` (src/src/core.rs lines 160-178):
substitute the tag rules into the postfix, build the command, skip under
dry-run, otherwise run locally or over SSH inside the install directory. -/
def runs_loop (env : Env) (runs : List RunOptions) (tag_rules : List String)
    (host : String) (dry_run : Bool) : Bool × List Action :=
  match runs with
  | [] => (false, [])
  | x :: rest =>
    let px := x.sfx.replace "$COLIRU_RULES" (String.intercalate " " tag_rules)
    let cmd := x.pfx ++ " " ++ x.src ++ " " ++ px
    if dry_run then runs_loop env rest tag_rules host dry_run
    else
      let a := if host == "" then Action.runCommand cmd
               else Action.sendCommand ("cd " ++ SSH_INSTALL_DIR ++ " && " ++ cmd) host
      let r := runs_loop env rest tag_rules host dry_run
      ((!(env.ok a) || r.1), a :: r.2)

/-- Translated from `execute_runs` (src/src/core.rs lines 144-181): when the
host is remote the scripts are first copied there through `execute_copies`,
then each run entry is executed by the per-entry loop. -/
def execute_runs (env : Env) (runs : List RunOptions) (tag_rules : List String)
    (host : String) (staging_dir : String) (dry_run : Bool) : Bool × List Action :=
  let pre := if host ≠ "" then
      execute_copies env (runs.map (fun x => ⟨x.src, x.src⟩)) host staging_dir dry_run
    else (false, [])
  let r := runs_loop env runs tag_rules host dry_run
  ((pre.1 || r.1), pre.2 ++ r.2)

/-- The link dispatch of `install_manifest` (src/src/core.rs lines 69-74):
when the copy-override flag is unset and the host is empty the link list is
executed by `execute_links`, otherwise it is executed by `execute_copies`
exactly as a copy list would be. -/
def link_phase (env : Env) (links : List CopyLinkOptions) (host : String)
    (staging_dir : String) (dry_run copy : Bool) : Bool × List Action :=
  if !copy && host == "" then execute_links env links dry_run
  else execute_copies env links host staging_dir dry_run

/-- The per-step body of `install_manifest`'s loop (src/src/core.rs lines
62-78): the copy list, then the link dispatch, then the run list, with all
error flags folded together. -/
def install_step (env : Env) (step : Step) (tag_rules : List String)
    (host : String) (staging_dir : String) (dry_run copy : Bool) :
    Bool × List Action :=
  let c := execute_copies env step.copy host staging_dir dry_run
  let l := link_phase env step.link host staging_dir dry_run copy
  let r := execute_runs env step.run tag_rules host staging_dir dry_run
  ((c.1 || l.1 || r.1), c.2 ++ l.2 ++ r.2)

/-- The step loop of `install_manifest`, folding each step's error flag into
the accumulated `errors` boolean. -/
def install_steps (env : Env) (steps : List Step) (tag_rules : List String)
    (host : String) (staging_dir : String) (dry_run copy : Bool) :
    Bool × List Action :=
  match steps with
  | [] => (false, [])
  | s :: rest =>
    let x := install_step env s tag_rules host staging_dir dry_run copy
    let y := install_steps env rest tag_rules host staging_dir dry_run copy
    ((x.1 || y.1), x.2 ++ y.2)

/-- Translated from `install_manifest` (src/src/core.rs lines 51-81): filter
the steps by the tag rules, create the temporary staging directory and enter
the manifest's base directory (both fatal on failure, modelled through the
environment), then execute every surviving step, returning whether any soft
error occurred together with the trace of attempted actions. -/
def install_manifest (env : Env) (manifest : Manifest) (tag_rules : List String)
    (host : String) (dry_run copy : Bool) : Except Unit (Bool × List Action) :=
  let fm := filter_manifest_steps manifest tag_rules
  if !env.tempdirOk then Except.error ()
  else if !env.setCurrentDirOk then Except.error ()
  else Except.ok
    (install_steps env fm.steps tag_rules host env.tempdirPath dry_run copy)

end Core

namespace LocalFs

/-- A filesystem entry: a directory, a regular file with its contents, or a
symbolic link to a target path. -/
inductive Node where
  | dir
  | file (content : String)
  | symlink (target : Ssh.RPath)
deriving DecidableEq

/-- A model filesystem: the process working directory, the user's home
directory (both absolute), and a finite map from absolute paths (as
component lists) to entries. -/
structure Fs where
  cwd : Ssh.RPath
  home : Ssh.RPath
  entries : List (List (List Char) × Node)
deriving DecidableEq

/-- Looks up the entry at an absolute path, following no symbolic links,
as `fs::symlink_metadata` observes existence. -/
def lookup (fs : Fs) (k : List (List Char)) : Option Node :=
  (fs.entries.find? (fun e => e.1 == k)).map (fun e => e.2)

def insertEntry (fs : Fs) (k : List (List Char)) (n : Node) : Fs :=
  { fs with entries := (k, n) :: fs.entries.filter (fun e => e.1 != k) }

def removeEntry (fs : Fs) (k : List (List Char)) : Fs :=
  { fs with entries := fs.entries.filter (fun e => e.1 != k) }

/-- Models `std::path::absolute` for the inputs used here: a relative path
is anchored at the working directory; no tilde expansion and no symbolic
link resolution happens. -/
def absolutize (fs : Fs) (s : String) : Ssh.RPath :=
  let p := Ssh.parsePath s
  if p.abs then p else Ssh.join fs.cwd p

/-- Models `shellexpand::tilde` with the user's real home directory: `~` and
`~/rest` expand to the home directory, anything else is unchanged. -/
def tildeL (fs : Fs) (s : String) : String :=
  match s.data with
  | ['~'] => String.mk (Ssh.render fs.home)
  | '~' :: '/' :: rest => String.mk (Ssh.render fs.home ++ '/' :: rest)
  | _ => s

/-- The non-empty prefixes of a path's component list, shortest first: the
chain of directories `fs::create_dir_all` must provide. -/
def dirChain : List (List Char) → List (List (List Char))
  | [] => []
  | c :: rest => [c] :: (dirChain rest).map (fun p => c :: p)

/-- Models `fs::create_dir_all` over a chain of directory keys: an existing
directory is kept, a missing one is created, and an existing non-directory
entry is an error. -/
def create_dirs (fs : Fs) : List (List (List Char)) → Except Unit Fs
  | [] => Except.ok fs
  | p :: rest =>
    match lookup fs p with
    | none => create_dirs (insertEntry fs p Node.dir) rest
    | some Node.dir => create_dirs fs rest
    | some _ => Except.error ()

/-- Translated from `prepare_path` (src/src/local.rs lines 61-71): expand
tildes, create the destination's parent directories, and remove the
destination if any entry (including a broken symbolic link) exists there;
`remove_file` on a directory is an error.  Returns the destination key and
the updated filesystem. -/
def prepare_path (fs : Fs) (path : String) : Except Unit (List (List Char)) × Fs :=
  let d := Ssh.parsePath (tildeL fs path)
  let k := (if d.abs then d else Ssh.join fs.cwd d).comps
  match create_dirs fs (dirChain k.dropLast) with
  | Except.error _ => (Except.error (), fs)
  | Except.ok fs1 =>
    match lookup fs1 k with
    | some Node.dir => (Except.error (), fs1)
    | some _ => (Except.ok k, removeEntry fs1 k)
    | none => (Except.ok k, fs1)

/-- Models `fs::copy`: reads the source file (following one level of
symbolic link) and writes its contents at the destination key. -/
def fs_copy (fs : Fs) (srcKey dstKey : List (List Char)) : Except Unit Fs :=
  match lookup fs srcKey with
  | some (Node.file c) => Except.ok (insertEntry fs dstKey (Node.file c))
  | some (Node.symlink t) =>
    match lookup fs t.comps with
    | some (Node.file c) => Except.ok (insertEntry fs dstKey (Node.file c))
    | _ => Except.error ()
  | _ => Except.error ()

/-- Translated from `copy_file` (src/src/local.rs lines 25-30): a no-op when
`absolute(src) == absolute(dst)` (compared before any tilde expansion), else
`prepare_path` on the destination followed by `fs::copy`. -/
def copy_file (fs : Fs) (src dst : String) : Except Unit Unit × Fs :=
  if absolutize fs src = absolutize fs dst then (Except.ok (), fs)
  else
    match prepare_path fs dst with
    | (Except.error _, fs1) => (Except.error (), fs1)
    | (Except.ok k, fs1) =>
      match fs_copy fs1 (absolutize fs src).comps k with
      | Except.error _ => (Except.error (), fs1)
      | Except.ok fs2 => (Except.ok (), fs2)

/-- Models `fs::canonicalize` for the inputs used here: the absolutized path
when an entry exists there, an error otherwise. -/
def canonicalize (fs : Fs) (s : String) : Except Unit Ssh.RPath :=
  let p := absolutize fs s
  match lookup fs p.comps with
  | some _ => Except.ok p
  | none => Except.error ()

/-- Translated from `link_file` (src/src/local.rs lines 41-46, Unix): a
no-op under the same `absolute`-equality guard, else `prepare_path` on the
destination followed by `symlink(canonicalize(src), dst)`. -/
def link_file (fs : Fs) (src dst : String) : Except Unit Unit × Fs :=
  if absolutize fs src = absolutize fs dst then (Except.ok (), fs)
  else
    match prepare_path fs dst with
    | (Except.error _, fs1) => (Except.error (), fs1)
    | (Except.ok k, fs1) =>
      match canonicalize fs1 src with
      | Except.error _ => (Except.error (), fs1)
      | Except.ok t => (Except.ok (), insertEntry fs1 k (Node.symlink t))

/-- The filesystem of the C9 failing input: home directory `/h/u` containing
the regular file `foo`, working directory `/c`. -/
def fs0 : Fs :=
  { cwd := Ssh.parsePath "/c",
    home := Ssh.parsePath "/h/u",
    entries := [((Ssh.parsePath "/h").comps, Node.dir),
                ((Ssh.parsePath "/h/u").comps, Node.dir),
                ((Ssh.parsePath "/h/u/foo").comps, Node.file "data")] }

end LocalFs

theorem splitOnChar_ne_nil (sep : Char) (l : List Char) : splitOnChar sep l ≠ [] := by
  cases l with
  | nil => simp [splitOnChar]
  | cons c cs =>
    simp only [splitOnChar]
    split
    · simp
    · split
      · simp
      · simp

/-- Splitting a list that does not contain the separator yields the single
segment equal to the whole list. -/
theorem splitOnChar_of_not_mem (sep : Char) (l : List Char) (h : sep ∉ l) :
    splitOnChar sep l = [l] := by
  induction l with
  | nil => rfl
  | cons c cs ih =>
    have hc : ¬ c = sep := fun hcs => h (hcs ▸ List.mem_cons_self c cs)
    have hcs : sep ∉ cs := fun hm => h (List.mem_cons_of_mem c hm)
    simp only [splitOnChar, if_neg hc, ih hcs]

theorem any_const_false {α : Type} (l : List α) : (l.any fun _ => false) = false := by
  induction l with
  | nil => rfl
  | cons x xs ih => simp [List.any, ih]

theorem tags_match_cons_tags (r : String) (rest tags : List String) :
    Tags.tags_match (r :: rest) tags =
      (ruleSatisfiedSpec '|' tags r && Tags.tags_match rest tags) := by
  simp only [Tags.tags_match, ruleSatisfiedSpec]
  generalize (r.data.head? == some '^') = n
  generalize ((splitOnChar '|' (if n = true then r.data.drop 1 else r.data)).any
    fun sub => tags.any fun tag => tag.data == sub) = f
  cases n <;> cases f <;> simp

theorem tags_match_cons_manifest (r : String) (rest tags : List String) :
    ManifestMod.tags_match (r :: rest) tags =
      (ruleSatisfiedSpec ',' tags r && ManifestMod.tags_match rest tags) := by
  simp only [ManifestMod.tags_match, ruleSatisfiedSpec]
  generalize (r.data.head? == some '^') = n
  generalize ((splitOnChar ',' (if n = true then r.data.drop 1 else r.data)).any
    fun sub => tags.any fun tag => tag.data == sub) = f
  cases n <;> cases f <;> simp

theorem ruleSatisfiedSpec_empty_tags (sep : Char) (r : String) :
    ruleSatisfiedSpec sep [] r = (r.data.head? == some '^') := by
  simp only [ruleSatisfiedSpec]
  rw [show ((splitOnChar sep (if (r.data.head? == some '^') = true
        then r.data.drop 1 else r.data)).any
      fun alt => ([] : List String).any fun tag => tag.data == alt) = false by
    simp only [List.any_nil]
    exact any_const_false _]
  cases r.data.head? == some '^' <;> rfl

theorem tags_match_iff_all_tags (rules tags : List String) :
    Tags.tags_match rules tags = true ↔
      ∀ r ∈ rules, ruleSatisfiedSpec '|' tags r = true := by
  induction rules with
  | nil => simp [Tags.tags_match]
  | cons r rest ih =>
    rw [tags_match_cons_tags]
    simp [Bool.and_eq_true, ih, List.forall_mem_cons]

theorem tags_match_iff_all_manifest (rules tags : List String) :
    ManifestMod.tags_match rules tags = true ↔
      ∀ r ∈ rules, ruleSatisfiedSpec ',' tags r = true := by
  induction rules with
  | nil => simp [ManifestMod.tags_match]
  | cons r rest ih =>
    rw [tags_match_cons_manifest]
    simp [Bool.and_eq_true, ih, List.forall_mem_cons]

/-- C1: both tag evaluators return true iff every rule is satisfied per the
spec's rule-by-rule description: strip a leading `^` (recording `negated`),
split the remainder on the union separator into alternative labels, set
`found` iff some alternative label equals some tag exactly, and require
`found != negated` for every rule. -/
theorem claim1_tags_match_characterization (rules tags : List String) :
    (Tags.tags_match rules tags = true ↔
       ∀ r ∈ rules, ruleSatisfiedSpec '|' tags r = true) ∧
    (ManifestMod.tags_match rules tags = true ↔
       ∀ r ∈ rules, ruleSatisfiedSpec ',' tags r = true) :=
  ⟨tags_match_iff_all_tags rules tags, tags_match_iff_all_manifest rules tags⟩

/-- Witness for C1 at a concrete input. -/
theorem claim1_witness :
    Tags.tags_match ["a"] ["a"] = true ∧
      ∀ r ∈ ["a"], ruleSatisfiedSpec ',' ["a"] r = true :=
  ⟨by decide,
   (claim1_tags_match_characterization ["a"] ["a"]).2.mp (by decide)⟩

/-- Counterexample to C2 as stated: the non-empty rule list `["^a"]`, which
consists of a single negated rule, matches the empty tag list in both
implementations. -/
theorem claim2_counterexample :
    Tags.tags_match ["^a"] [] = true ∧ ManifestMod.tags_match ["^a"] [] = true := by
  decide

/-- C2 amended: a rule list containing at least one rule that does not start
with the negation marker `^` never matches an empty tag list. -/
theorem claim2_amended (rules : List String)
    (h : ∃ r ∈ rules, r.data.head? ≠ some '^') :
    Tags.tags_match rules [] = false ∧ ManifestMod.tags_match rules [] = false := by
  induction rules with
  | nil => simp at h
  | cons r rest ih =>
    rw [tags_match_cons_tags, tags_match_cons_manifest,
      ruleSatisfiedSpec_empty_tags, ruleSatisfiedSpec_empty_tags]
    by_cases hneg : r.data.head? = some '^'
    · have hrest : ∃ x ∈ rest, x.data.head? ≠ some '^' := by
        rcases h with ⟨x, hx, hxne⟩
        rcases List.mem_cons.mp hx with hx | hx
        · exact absurd (hx ▸ hneg) hxne
        · exact ⟨x, hx, hxne⟩
      simp [hneg, (ih hrest).1, (ih hrest).2]
    · simp [hneg]

/-- Witness for C2 (amended) at a concrete input. -/
theorem claim2_witness :
    Tags.tags_match ["^a", "b"] [] = false ∧
      ManifestMod.tags_match ["^a", "b"] [] = false :=
  claim2_amended ["^a", "b"] ⟨"b", by decide, by decide⟩

/-- C3: a non-empty rule list in which every rule starts with the negation
marker `^` matches the empty tag list in both implementations (negation is
satisfied vacuously). -/
theorem claim3_negated_rules_empty_tags (rules : List String)
    (_hne : rules ≠ [])
    (hall : ∀ r ∈ rules, r.data.head? = some '^') :
    Tags.tags_match rules [] = true ∧ ManifestMod.tags_match rules [] = true := by
  clear _hne
  induction rules with
  | nil => simp [Tags.tags_match, ManifestMod.tags_match]
  | cons r rest ih =>
    have hr := hall r (List.mem_cons_self r rest)
    have hrest := ih (fun x hx => hall x (List.mem_cons_of_mem r hx))
    rw [tags_match_cons_tags, tags_match_cons_manifest,
      ruleSatisfiedSpec_empty_tags, ruleSatisfiedSpec_empty_tags]
    simp [hr, hrest.1, hrest.2]

/-- Witness for C3 at a concrete input. -/
theorem claim3_witness :
    Tags.tags_match ["^a", "^b"] [] = true ∧
      ManifestMod.tags_match ["^a", "^b"] [] = true :=
  claim3_negated_rules_empty_tags ["^a", "^b"] (by decide) (by decide)

/-- Counterexample to C5 as stated: on the rule `"a,b"` with tag `"a"` the
two evaluators disagree, because src/tags.rs splits rules on `|` while
src/manifest.rs splits them on `,`. -/
theorem claim5_counterexample :
    Tags.tags_match ["a,b"] ["a"] ≠ ManifestMod.tags_match ["a,b"] ["a"] := by
  decide

/-- C5 amended: the two evaluators differ only in the union separator (`|` in
src/tags.rs, `,` in src/manifest.rs); they agree on every rule list in which
no rule contains either separator character. -/
theorem claim5_amended (rules tags : List String)
    (h : ∀ r ∈ rules, ',' ∉ r.data ∧ '|' ∉ r.data) :
    Tags.tags_match rules tags = ManifestMod.tags_match rules tags := by
  induction rules with
  | nil => rfl
  | cons r rest ih =>
    have hr := h r (List.mem_cons_self r rest)
    have hrest := ih (fun x hx => h x (List.mem_cons_of_mem r hx))
    have hbody : ∀ sep : Char, sep ∉ r.data →
        splitOnChar sep (if (r.data.head? == some '^') = true
            then r.data.drop 1 else r.data) =
          [if (r.data.head? == some '^') = true then r.data.drop 1 else r.data] := by
      intro sep hsep
      apply splitOnChar_of_not_mem
      split
      · exact fun hm => hsep (List.drop_subset 1 r.data hm)
      · exact hsep
    rw [tags_match_cons_tags, tags_match_cons_manifest, hrest]
    simp only [ruleSatisfiedSpec, hbody ',' hr.1, hbody '|' hr.2]

/-- Witness for C5 (amended) at a concrete input. -/
theorem claim5_witness :
    Tags.tags_match ["ab"] ["ab"] = ManifestMod.tags_match ["ab"] ["ab"] :=
  claim5_amended ["ab"] ["ab"] (by decide)

namespace Ssh

theorem splitF_sep_cons (l : List Char) : splitF ('/' :: l) = splitF l := by
  simp [splitF, splitOnChar]

theorem splitOnChar_comp_append (c l : List Char) (hc : '/' ∉ c) (g : List Char)
    (gs : List (List Char)) (h : splitOnChar '/' l = g :: gs) :
    splitOnChar '/' (c ++ l) = (c ++ g) :: gs := by
  induction c with
  | nil => simpa using h
  | cons x xs ih =>
    have hx : ¬ x = '/' := fun hxe => hc (hxe ▸ List.mem_cons_self x xs)
    have hxs : '/' ∉ xs := fun hm => hc (List.mem_cons_of_mem x hm)
    simp only [List.cons_append, splitOnChar, if_neg hx]
    rw [List.append_eq, ih hxs]

theorem splitF_comp_sep (c l : List Char) (hne : c ≠ []) (hc : '/' ∉ c) :
    splitF (c ++ '/' :: l) = c :: splitF l := by
  have h1 : splitOnChar '/' ('/' :: l) = [] :: splitOnChar '/' l := by
    simp [splitOnChar]
  have h2 := splitOnChar_comp_append c ('/' :: l) hc [] (splitOnChar '/' l) h1
  simp only [splitF, h2, List.append_nil, List.filter]
  have : (c != []) = true := by simpa using hne
  simp [this]

theorem splitF_comps_append (cs : List (List Char)) (l : List Char)
    (hwf : wfComps cs = true) :
    splitF (renderComps cs ++ '/' :: l) = cs ++ splitF l := by
  induction cs with
  | nil => simpa [renderComps] using splitF_sep_cons l
  | cons c cs' ih =>
    have hc := (by simpa [wfComps, List.all_eq_true] using hwf :
      ((c ≠ [] ∧ '/' ∉ c) ∧ ∀ x ∈ cs', x ≠ [] ∧ '/' ∉ x))
    cases cs' with
    | nil =>
      simpa [renderComps] using splitF_comp_sep c l hc.1.1 hc.1.2
    | cons d ds =>
      have hwf' : wfComps (d :: ds) = true := by
        simp only [wfComps, List.all_eq_true]
        intro x hx
        have := hc.2 x hx
        simp [this.1, this.2]
      have : renderComps (c :: d :: ds) ++ '/' :: l =
          c ++ '/' :: (renderComps (d :: ds) ++ '/' :: l) := by
        simp [renderComps]
      rw [this, splitF_comp_sep c _ hc.1.1 hc.1.2, ih hwf']
      simp

theorem compsPre_self_append (l m : List (List Char)) :
    compsPre l (l ++ m) = true := by
  induction l with
  | nil => rfl
  | cons a xs ih => simp [compsPre, ih]

end Ssh

namespace Ssh

theorem wfComps_append (a b : List (List Char)) (ha : wfComps a = true)
    (hb : wfComps b = true) : wfComps (a ++ b) = true := by
  simp only [wfComps, List.all_append, Bool.and_eq_true]
  exact ⟨ha, hb⟩

theorem join_rel (p q : RPath) (h : q.abs = false) :
    join p q = ⟨p.abs, p.comps ++ q.comps⟩ := by
  simp [join, h]

theorem join_abs (p q : RPath) (h : q.abs = true) : join p q = q := by
  simp [join, h]

theorem home_dir_eq (S : RPath) :
    join S (parsePath "home") = ⟨S.abs, S.comps ++ (parsePath "home").comps⟩ :=
  join_rel S (parsePath "home") (by decide)

theorem root_dir_eq (S : RPath) :
    join S (parsePath "root") = ⟨S.abs, S.comps ++ (parsePath "root").comps⟩ :=
  join_rel S (parsePath "root") (by decide)

theorem parsePath_home_render (hd : RPath) (habs : hd.abs = true)
    (hwf : wfComps hd.comps = true) (r : List Char) :
    parsePath (String.mk (render hd) ++ String.mk ('/' :: r)) =
      ⟨true, hd.comps ++ splitF r⟩ := by
  have hdata : (String.mk (render hd) ++ String.mk ('/' :: r)).data =
      '/' :: (renderComps hd.comps ++ '/' :: r) := by
    show render hd ++ '/' :: r = _
    simp [render, habs]
  simp only [parsePath, hdata, RPath.mk.injEq]
  refine ⟨rfl, ?_⟩
  rw [splitF_sep_cons, splitF_comps_append hd.comps r hwf]

/-- Tilde case of the staging resolution: a destination of the form `~/p`
lands at `S/home/p`. -/
theorem stage_file_dst_tilde (S : RPath) (hS : S.abs = true)
    (hwf : wfComps S.comps = true) (dst : String) (r : List Char)
    (hdst : dst.data = '~' :: '/' :: r) :
    stage_file_dst dst S =
      .ok ⟨true, S.comps ++ ((parsePath "home").comps ++ splitF r)⟩ := by
  have hhd := home_dir_eq S
  have hdabs : (join S (parsePath "home")).abs = true := by rw [hhd]; exact hS
  have hwfhd : wfComps (join S (parsePath "home")).comps = true := by
    rw [hhd]
    exact wfComps_append _ _ hwf (by decide)
  have htilde : tilde_with_context dst (String.mk (render (join S (parsePath "home")))) =
      String.mk (render (join S (parsePath "home"))) ++ String.mk ('/' :: r) := by
    unfold tilde_with_context
    rw [hdst]
    rfl
  have hparse := parsePath_home_render (join S (parsePath "home")) hdabs hwfhd r
  simp only [stage_file_dst, htilde, hparse]
  rw [join_abs _ _ (by rfl)]
  have hsw : starts_with ⟨true, (join S (parsePath "home")).comps ++ splitF r⟩
      (join S (parsePath "home")) = true := by
    simp only [starts_with, hdabs]
    simpa using compsPre_self_append (join S (parsePath "home")).comps (splitF r)
  rw [if_pos hsw]
  rw [hhd]
  simp

/-- Relative case of the staging resolution: a destination that starts with
neither `~` nor `/` lands at `S/home/dst`. -/
theorem stage_file_dst_relative (S : RPath) (hS : S.abs = true)
    (hwf : wfComps S.comps = true) (dst : String)
    (h1 : dst.data.head? ≠ some '~') (h2 : dst.data.head? ≠ some '/') :
    stage_file_dst dst S =
      .ok ⟨true, S.comps ++ ((parsePath "home").comps ++ splitF dst.data)⟩ := by
  have hhd := home_dir_eq S
  have hdabs : (join S (parsePath "home")).abs = true := by rw [hhd]; exact hS
  have htilde : ∀ home : String, tilde_with_context dst home = dst := by
    intro home
    unfold tilde_with_context
    split
    · next heq => exact absurd (by rw [heq]; rfl) h1
    · next heq => exact absurd (by rw [heq]; rfl) h1
    · rfl
  have hparse : parsePath dst = ⟨false, splitF dst.data⟩ := by
    simp only [parsePath, RPath.mk.injEq]
    exact ⟨by simpa using h2, trivial⟩
  simp only [stage_file_dst, htilde, hparse]
  rw [join_rel _ _ (by rfl)]
  have hsw : starts_with ⟨(join S (parsePath "home")).abs,
      (join S (parsePath "home")).comps ++ splitF dst.data⟩
      (join S (parsePath "home")) = true := by
    simp only [starts_with]
    simpa using compsPre_self_append (join S (parsePath "home")).comps (splitF dst.data)
  rw [if_pos hsw]
  rw [hhd]
  simp [hS]

/-- Absolute non-home case of the staging resolution: an absolute destination
that does not lie under `S/home` is re-rooted under `S/root` with the
filesystem root stripped. -/
theorem stage_file_dst_absolute (S : RPath) (hS : S.abs = true)
    (hwf : wfComps S.comps = true) (dst : String) (r : List Char)
    (hdst : dst.data = '/' :: r)
    (hnot : compsPre (join S (parsePath "home")).comps (splitF r) = false) :
    stage_file_dst dst S =
      .ok ⟨true, S.comps ++ ((parsePath "root").comps ++ splitF r)⟩ := by
  have hhd := home_dir_eq S
  have hdabs : (join S (parsePath "home")).abs = true := by rw [hhd]; exact hS
  have htilde : ∀ home : String, tilde_with_context dst home = dst := by
    intro home
    unfold tilde_with_context
    split
    · next heq => rw [hdst] at heq; exact absurd heq (by simp)
    · next heq => rw [hdst] at heq; exact absurd heq (by simp)
    · rfl
  have hparse : parsePath dst = ⟨true, splitF r⟩ := by
    simp only [parsePath, hdst, RPath.mk.injEq]
    exact ⟨rfl, splitF_sep_cons r⟩
  simp only [stage_file_dst, htilde, hparse]
  rw [join_abs _ _ (by rfl)]
  have hsw : starts_with ⟨true, splitF r⟩ (join S (parsePath "home")) = false := by
    simp only [starts_with, hdabs, hnot]
    simp
  rw [if_neg (by simp [hsw])]
  have hfirst : firstComponent ⟨true, splitF r⟩ = some ['/'] := rfl
  have hroot : join (parsePath (String.mk ['/'])) (parsePath "/") = ⟨true, []⟩ := by
    decide
  have hstrip : stripPrefixP ⟨true, splitF r⟩ ⟨true, []⟩ = some ⟨false, splitF r⟩ := by
    simp [stripPrefixP, starts_with, compsPre]
  simp only [hfirst, hroot, hstrip]
  rw [root_dir_eq S, join_rel _ _ (by rfl)]
  simp [hS]

/-- Absolute under-home case of the staging resolution: an absolute
destination that already lies under `S/home` is kept unchanged. -/
theorem stage_file_dst_absolute_home (S : RPath) (hS : S.abs = true)
    (hwf : wfComps S.comps = true) (dst : String) (r : List Char)
    (hdst : dst.data = '/' :: r)
    (hyes : compsPre (join S (parsePath "home")).comps (splitF r) = true) :
    stage_file_dst dst S = .ok ⟨true, splitF r⟩ := by
  have hhd := home_dir_eq S
  have hdabs : (join S (parsePath "home")).abs = true := by rw [hhd]; exact hS
  have htilde : ∀ home : String, tilde_with_context dst home = dst := by
    intro home
    unfold tilde_with_context
    split
    · next heq => rw [hdst] at heq; exact absurd heq (by simp)
    · next heq => rw [hdst] at heq; exact absurd heq (by simp)
    · rfl
  have hparse : parsePath dst = ⟨true, splitF r⟩ := by
    simp only [parsePath, hdst, RPath.mk.injEq]
    exact ⟨rfl, splitF_sep_cons r⟩
  simp only [stage_file_dst, htilde, hparse]
  rw [join_abs _ _ (by rfl)]
  have hsw : starts_with ⟨true, splitF r⟩ (join S (parsePath "home")) = true := by
    simp [starts_with, hdabs, hyes]
  rw [if_pos hsw]

end Ssh

/-- Counterexample to C4 as stated: with staging root `/s`, the legal
absolute destination `/s/home/q` is not re-rooted under `/s/root` with the
filesystem root stripped (which would give `/s/root/s/home/q`); it already
falls under the staging tree's `home` subtree and is kept unchanged. -/
theorem claim4_counterexample :
    Ssh.stage_file_dst "/s/home/q" (Ssh.parsePath "/s") =
        Except.ok (Ssh.parsePath "/s/home/q") ∧
      Ssh.parsePath "/s/home/q" ≠ Ssh.parsePath "/s/root/s/home/q" := by
  constructor
  · rfl
  · decide

/-- C4 amended: for an absolute staging root `S`, the staging destination of
`stage_file` is total and deterministic on every legal destination, with the
error branch never taken: `~/p` maps to `S/home/p`; a relative `p` (starting
with neither `~` nor `/`) maps to `S/home/p`; an absolute `/p` that does not
already lie under `S/home` maps to `S/root/p` with the filesystem root
stripped; and an absolute `/p` already under `S/home` is kept unchanged. -/
theorem claim4_amended (S : Ssh.RPath) (dst : String) (hS : S.abs = true)
    (hwf : Ssh.wfComps S.comps = true) :
    (∀ r, dst.data = '~' :: '/' :: r →
      Ssh.stage_file_dst dst S =
        Except.ok ⟨true, S.comps ++ ((Ssh.parsePath "home").comps ++ Ssh.splitF r)⟩) ∧
    (dst.data.head? ≠ some '~' → dst.data.head? ≠ some '/' →
      Ssh.stage_file_dst dst S =
        Except.ok ⟨true, S.comps ++ ((Ssh.parsePath "home").comps ++ Ssh.splitF dst.data)⟩) ∧
    (∀ r, dst.data = '/' :: r →
      Ssh.compsPre (Ssh.join S (Ssh.parsePath "home")).comps (Ssh.splitF r) = false →
      Ssh.stage_file_dst dst S =
        Except.ok ⟨true, S.comps ++ ((Ssh.parsePath "root").comps ++ Ssh.splitF r)⟩) ∧
    (∀ r, dst.data = '/' :: r →
      Ssh.compsPre (Ssh.join S (Ssh.parsePath "home")).comps (Ssh.splitF r) = true →
      Ssh.stage_file_dst dst S = Except.ok ⟨true, Ssh.splitF r⟩) :=
  ⟨fun r hr => Ssh.stage_file_dst_tilde S hS hwf dst r hr,
   fun h1 h2 => Ssh.stage_file_dst_relative S hS hwf dst h1 h2,
   fun r hr hn => Ssh.stage_file_dst_absolute S hS hwf dst r hr hn,
   fun r hr hy => Ssh.stage_file_dst_absolute_home S hS hwf dst r hr hy⟩

/-- Witness for C4 (amended) at concrete inputs covering the tilde, relative
and absolute cases. -/
theorem claim4_witness :
    Ssh.stage_file_dst "~/x" (Ssh.parsePath "/s") =
        Except.ok ⟨true, (Ssh.parsePath "/s").comps ++
          ((Ssh.parsePath "home").comps ++ Ssh.splitF "x".data)⟩ ∧
    Ssh.stage_file_dst "y/z" (Ssh.parsePath "/s") =
        Except.ok ⟨true, (Ssh.parsePath "/s").comps ++
          ((Ssh.parsePath "home").comps ++ Ssh.splitF "y/z".data)⟩ ∧
    Ssh.stage_file_dst "/etc/q" (Ssh.parsePath "/s") =
        Except.ok ⟨true, (Ssh.parsePath "/s").comps ++
          ((Ssh.parsePath "root").comps ++ Ssh.splitF "etc/q".data)⟩ :=
  ⟨(claim4_amended (Ssh.parsePath "/s") "~/x" (by decide) (by decide)).1
      "x".data (by decide),
   (claim4_amended (Ssh.parsePath "/s") "y/z" (by decide) (by decide)).2.1
      (by decide) (by decide),
   (claim4_amended (Ssh.parsePath "/s") "/etc/q" (by decide) (by decide)).2.2.1
      "etc/q".data (by decide) (by decide)⟩

namespace Core

theorem copies_loop_trace (env₁ env₂ : Env) (copies : List CopyLinkOptions)
    (host staging_dir : String) (dry_run : Bool) :
    (copies_loop env₁ copies host staging_dir dry_run).2 =
    (copies_loop env₂ copies host staging_dir dry_run).2 := by
  induction copies with
  | nil => rfl
  | cons c rest ih =>
    simp only [copies_loop]
    cases dry_run <;> simp [ih]

theorem copies_loop_err (env : Env) (copies : List CopyLinkOptions)
    (host staging_dir : String) (dry_run : Bool) :
    (copies_loop env copies host staging_dir dry_run).1 =
      failed env (copies_loop env copies host staging_dir dry_run).2 := by
  induction copies with
  | nil => rfl
  | cons c rest ih =>
    simp only [failed] at ih ⊢
    simp only [copies_loop]
    cases dry_run <;> simp [List.any_cons, ih]

theorem execute_copies_trace (env₁ env₂ : Env) (copies : List CopyLinkOptions)
    (host staging_dir : String) (dry_run : Bool) :
    (execute_copies env₁ copies host staging_dir dry_run).2 =
    (execute_copies env₂ copies host staging_dir dry_run).2 := by
  simp only [execute_copies]
  cases dry_run <;>
    simp [copies_loop_trace env₁ env₂ copies host staging_dir]

theorem execute_copies_err (env : Env) (copies : List CopyLinkOptions)
    (host staging_dir : String) (dry_run : Bool) :
    (execute_copies env copies host staging_dir dry_run).1 =
      failed env (execute_copies env copies host staging_dir dry_run).2 := by
  have h := copies_loop_err env copies host staging_dir dry_run
  simp only [failed] at h ⊢
  simp only [execute_copies]
  cases dry_run <;> simp [List.any_append, List.any_cons, h]

theorem execute_links_trace (env₁ env₂ : Env) (links : List CopyLinkOptions)
    (dry_run : Bool) :
    (execute_links env₁ links dry_run).2 = (execute_links env₂ links dry_run).2 := by
  induction links with
  | nil => rfl
  | cons l rest ih =>
    simp only [execute_links]
    cases dry_run <;> simp [ih]

theorem execute_links_err (env : Env) (links : List CopyLinkOptions)
    (dry_run : Bool) :
    (execute_links env links dry_run).1 =
      failed env (execute_links env links dry_run).2 := by
  induction links with
  | nil => rfl
  | cons l rest ih =>
    simp only [failed] at ih ⊢
    simp only [execute_links]
    cases dry_run <;> simp [List.any_cons, ih]

theorem runs_loop_trace (env₁ env₂ : Env) (runs : List RunOptions)
    (tag_rules : List String) (host : String) (dry_run : Bool) :
    (runs_loop env₁ runs tag_rules host dry_run).2 =
    (runs_loop env₂ runs tag_rules host dry_run).2 := by
  induction runs with
  | nil => rfl
  | cons x rest ih =>
    simp only [runs_loop]
    cases dry_run <;> simp [ih]

theorem runs_loop_err (env : Env) (runs : List RunOptions)
    (tag_rules : List String) (host : String) (dry_run : Bool) :
    (runs_loop env runs tag_rules host dry_run).1 =
      failed env (runs_loop env runs tag_rules host dry_run).2 := by
  induction runs with
  | nil => rfl
  | cons x rest ih =>
    simp only [failed] at ih ⊢
    simp only [runs_loop]
    cases dry_run <;> simp [List.any_cons, ih]

theorem execute_runs_trace (env₁ env₂ : Env) (runs : List RunOptions)
    (tag_rules : List String) (host staging_dir : String) (dry_run : Bool) :
    (execute_runs env₁ runs tag_rules host staging_dir dry_run).2 =
    (execute_runs env₂ runs tag_rules host staging_dir dry_run).2 := by
  simp only [execute_runs]
  by_cases h : host ≠ "" <;>
    simp [h, execute_copies_trace env₁ env₂, runs_loop_trace env₁ env₂]

theorem execute_runs_err (env : Env) (runs : List RunOptions)
    (tag_rules : List String) (host staging_dir : String) (dry_run : Bool) :
    (execute_runs env runs tag_rules host staging_dir dry_run).1 =
      failed env (execute_runs env runs tag_rules host staging_dir dry_run).2 := by
  have h1 := execute_copies_err env (runs.map fun x => ⟨x.src, x.src⟩)
    host staging_dir dry_run
  have h2 := runs_loop_err env runs tag_rules host dry_run
  simp only [failed] at h1 h2 ⊢
  simp only [execute_runs]
  by_cases hh : host ≠ "" <;> simp [hh, List.any_append, h1, h2]

theorem link_phase_trace (env₁ env₂ : Env) (links : List CopyLinkOptions)
    (host staging_dir : String) (dry_run copy : Bool) :
    (link_phase env₁ links host staging_dir dry_run copy).2 =
    (link_phase env₂ links host staging_dir dry_run copy).2 := by
  simp only [link_phase]
  split
  · exact execute_links_trace env₁ env₂ links dry_run
  · exact execute_copies_trace env₁ env₂ links host staging_dir dry_run

theorem link_phase_err (env : Env) (links : List CopyLinkOptions)
    (host staging_dir : String) (dry_run copy : Bool) :
    (link_phase env links host staging_dir dry_run copy).1 =
      failed env (link_phase env links host staging_dir dry_run copy).2 := by
  simp only [link_phase]
  split
  · exact execute_links_err env links dry_run
  · exact execute_copies_err env links host staging_dir dry_run

theorem install_step_trace (env₁ env₂ : Env) (step : Step)
    (tag_rules : List String) (host staging_dir : String) (dry_run copy : Bool) :
    (install_step env₁ step tag_rules host staging_dir dry_run copy).2 =
    (install_step env₂ step tag_rules host staging_dir dry_run copy).2 := by
  simp only [install_step]
  rw [execute_copies_trace env₁ env₂, link_phase_trace env₁ env₂,
    execute_runs_trace env₁ env₂]

theorem install_step_err (env : Env) (step : Step)
    (tag_rules : List String) (host staging_dir : String) (dry_run copy : Bool) :
    (install_step env step tag_rules host staging_dir dry_run copy).1 =
      failed env (install_step env step tag_rules host staging_dir dry_run copy).2 := by
  have h1 := execute_copies_err env step.copy host staging_dir dry_run
  have h2 := link_phase_err env step.link host staging_dir dry_run copy
  have h3 := execute_runs_err env step.run tag_rules host staging_dir dry_run
  simp only [failed] at h1 h2 h3 ⊢
  simp only [install_step]
  simp [List.any_append, h1, h2, h3, Bool.or_assoc]

theorem install_steps_trace (env₁ env₂ : Env) (steps : List Step)
    (tag_rules : List String) (host staging_dir : String) (dry_run copy : Bool) :
    (install_steps env₁ steps tag_rules host staging_dir dry_run copy).2 =
    (install_steps env₂ steps tag_rules host staging_dir dry_run copy).2 := by
  induction steps with
  | nil => rfl
  | cons s rest ih =>
    simp only [install_steps]
    rw [install_step_trace env₁ env₂, ih]

theorem install_steps_err (env : Env) (steps : List Step)
    (tag_rules : List String) (host staging_dir : String) (dry_run copy : Bool) :
    (install_steps env steps tag_rules host staging_dir dry_run copy).1 =
      failed env (install_steps env steps tag_rules host staging_dir dry_run copy).2 := by
  induction steps with
  | nil => rfl
  | cons s rest ih =>
    have h1 := install_step_err env s tag_rules host staging_dir dry_run copy
    simp only [failed] at h1 ih ⊢
    simp only [install_steps]
    simp [List.any_append, h1, ih]

end Core

namespace Core

theorem copies_loop_dry (env : Env) (copies : List CopyLinkOptions)
    (host staging_dir : String) :
    copies_loop env copies host staging_dir true = (false, []) := by
  induction copies with
  | nil => rfl
  | cons c rest ih => simp [copies_loop, ih]

theorem execute_copies_dry (env : Env) (copies : List CopyLinkOptions)
    (host staging_dir : String) :
    execute_copies env copies host staging_dir true = (false, []) := by
  simp [execute_copies, copies_loop_dry]

theorem execute_links_dry (env : Env) (links : List CopyLinkOptions) :
    execute_links env links true = (false, []) := by
  induction links with
  | nil => rfl
  | cons l rest ih => simp [execute_links, ih]

theorem runs_loop_dry (env : Env) (runs : List RunOptions)
    (tag_rules : List String) (host : String) :
    runs_loop env runs tag_rules host true = (false, []) := by
  induction runs with
  | nil => rfl
  | cons x rest ih => simp [runs_loop, ih]

theorem execute_runs_dry (env : Env) (runs : List RunOptions)
    (tag_rules : List String) (host staging_dir : String) :
    execute_runs env runs tag_rules host staging_dir true = (false, []) := by
  simp only [execute_runs, execute_copies_dry, runs_loop_dry]
  by_cases h : host ≠ "" <;> simp [h]

theorem link_phase_dry (env : Env) (links : List CopyLinkOptions)
    (host staging_dir : String) (copy : Bool) :
    link_phase env links host staging_dir true copy = (false, []) := by
  simp only [link_phase]
  split
  · exact execute_links_dry env links
  · exact execute_copies_dry env links host staging_dir

theorem install_step_dry (env : Env) (step : Step) (tag_rules : List String)
    (host staging_dir : String) (copy : Bool) :
    install_step env step tag_rules host staging_dir true copy = (false, []) := by
  simp [install_step, execute_copies_dry, link_phase_dry, execute_runs_dry]

theorem install_steps_dry (env : Env) (steps : List Step)
    (tag_rules : List String) (host staging_dir : String) (copy : Bool) :
    install_steps env steps tag_rules host staging_dir true copy = (false, []) := by
  induction steps with
  | nil => rfl
  | cons s rest ih => simp [install_steps, install_step_dry, ih]

theorem execute_links_map (env : Env) (links : List CopyLinkOptions) :
    (execute_links env links false).2 =
      links.map (fun l => Action.linkFile l.src l.dst) := by
  induction links with
  | nil => rfl
  | cons l rest ih => simp [execute_links, ih]

theorem copies_loop_no_link (env : Env) (copies : List CopyLinkOptions)
    (host staging_dir : String) (dry_run : Bool) (s d : String) :
    Action.linkFile s d ∉ (copies_loop env copies host staging_dir dry_run).2 := by
  induction copies with
  | nil => simp [copies_loop]
  | cons c rest ih =>
    simp only [copies_loop]
    cases dry_run
    · simp only [Bool.false_eq_true, if_false, List.mem_cons]
      rintro (h | h)
      · split at h <;> simp at h
      · exact ih h
    · simpa using ih

theorem execute_copies_no_link (env : Env) (copies : List CopyLinkOptions)
    (host staging_dir : String) (dry_run : Bool) (s d : String) :
    Action.linkFile s d ∉ (execute_copies env copies host staging_dir dry_run).2 := by
  simp only [execute_copies]
  cases dry_run
  · simp only [Bool.false_eq_true, if_false, List.mem_append, List.mem_singleton]
    rintro (h | h)
    · exact copies_loop_no_link env copies host staging_dir false s d h
    · simp at h
  · simpa using copies_loop_no_link env copies host staging_dir true s d

end Core

/-- C6: soft-error independence of `install_manifest`.  For a fixed manifest,
rule set, host and flags: the trace of attempted actions is the same under
any two environments (so no individual failure prevents any later action of
the same step or a later step from being attempted), and the returned
boolean is exactly whether at least one attempted action failed.
`filter_manifest_steps` is missing from src/ and is modelled from the spec. -/
theorem claim6_soft_error_accounting (env₁ env₂ : Core.Env)
    (manifest : Core.Manifest) (tag_rules : List String) (host : String)
    (dry_run copy : Bool) (o₁ o₂ : Bool × List Core.Action)
    (hpath : env₁.tempdirPath = env₂.tempdirPath)
    (h₁ : Core.install_manifest env₁ manifest tag_rules host dry_run copy =
      Except.ok o₁)
    (h₂ : Core.install_manifest env₂ manifest tag_rules host dry_run copy =
      Except.ok o₂) :
    o₁.2 = o₂.2 ∧ o₁.1 = Core.failed env₁ o₁.2 := by
  have extract : ∀ (env : Core.Env) (o : Bool × List Core.Action),
      Core.install_manifest env manifest tag_rules host dry_run copy =
        Except.ok o →
      o = Core.install_steps env
        (Core.filter_manifest_steps manifest tag_rules).steps tag_rules host
        env.tempdirPath dry_run copy := by
    intro env o h
    simp only [Core.install_manifest] at h
    cases henv : env.tempdirOk <;> rw [henv] at h
    · simp at h
    · cases hcd : env.setCurrentDirOk <;> rw [hcd] at h
      · simp at h
      · simp at h
        exact h.symm
  have e₁ := extract env₁ o₁ h₁
  have e₂ := extract env₂ o₂ h₂
  constructor
  · rw [e₁, e₂, hpath]
    exact Core.install_steps_trace env₁ env₂ _ tag_rules host _ dry_run copy
  · rw [e₁]
    exact Core.install_steps_err env₁ _ tag_rules host _ dry_run copy

/-- Witness for C6 at a concrete input: an all-succeeding and an
all-failing environment produce the same attempted-action trace, and the
error flag equals whether some attempted action failed. -/
theorem claim6_witness :
    ((false, [Core.Action.copyFile "a" "b",
        Core.Action.sendStagedFiles "/t" ""]) : Bool × List Core.Action).2 =
      ((true, [Core.Action.copyFile "a" "b",
        Core.Action.sendStagedFiles "/t" ""]) : Bool × List Core.Action).2 ∧
    ((false, [Core.Action.copyFile "a" "b",
        Core.Action.sendStagedFiles "/t" ""]) : Bool × List Core.Action).1 =
      Core.failed ⟨fun _ => true, true, "/t", true⟩
        ((false, [Core.Action.copyFile "a" "b",
          Core.Action.sendStagedFiles "/t" ""]) : Bool × List Core.Action).2 :=
  claim6_soft_error_accounting
    ⟨fun _ => true, true, "/t", true⟩ ⟨fun _ => false, true, "/t", true⟩
    ⟨[⟨[⟨"a", "b"⟩], [], [], []⟩], "."⟩ [] "" false false
    (false, [Core.Action.copyFile "a" "b", Core.Action.sendStagedFiles "/t" ""])
    (true, [Core.Action.copyFile "a" "b", Core.Action.sendStagedFiles "/t" ""])
    rfl rfl rfl

/-- C7: dry-run purity.  When `dry_run` is set and the fatal setup steps
succeed, `install_manifest` attempts no action at all (no copy, link,
staging, transfer or command execution) and returns `Ok(false)` whatever the
environment would make each action do.  `filter_manifest_steps` is missing
from src/ and is modelled from the spec. -/
theorem claim7_dry_run_purity (env : Core.Env) (manifest : Core.Manifest)
    (tag_rules : List String) (host : String) (copy : Bool)
    (ht : env.tempdirOk = true) (hc : env.setCurrentDirOk = true) :
    Core.install_manifest env manifest tag_rules host true copy =
      Except.ok (false, []) := by
  simp [Core.install_manifest, ht, hc, Core.install_steps_dry]

/-- Witness for C7 at a concrete input whose every action would fail. -/
theorem claim7_witness :
    Core.install_manifest ⟨fun _ => false, true, "/t", true⟩
      ⟨[⟨[⟨"missing", "dst"⟩], [⟨"x", "y"⟩], [⟨"s", "sh", ""⟩], []⟩], "."⟩
      ["linux"] "" true false = Except.ok (false, []) :=
  claim7_dry_run_purity ⟨fun _ => false, true, "/t", true⟩
    ⟨[⟨[⟨"missing", "dst"⟩], [⟨"x", "y"⟩], [⟨"s", "sh", ""⟩], []⟩], "."⟩
    ["linux"] "" false rfl rfl

/-- C8: link entries are executed as symbolic links iff the host is empty
and the copy-override flag is unset; in every other case the link list is
handed to `execute_copies`, exactly as a copy list would be, and no
symbolic-link action appears in the trace. -/
theorem claim8_link_mode (env : Core.Env) (links : List Core.CopyLinkOptions)
    (host staging_dir : String) (dry_run copy : Bool) :
    (copy = false ∧ host = "" →
      Core.link_phase env links host staging_dir dry_run copy =
        Core.execute_links env links dry_run ∧
      (dry_run = false →
        (Core.link_phase env links host staging_dir dry_run copy).2 =
          links.map (fun l => Core.Action.linkFile l.src l.dst))) ∧
    (¬(copy = false ∧ host = "") →
      Core.link_phase env links host staging_dir dry_run copy =
        Core.execute_copies env links host staging_dir dry_run ∧
      ∀ s d, Core.Action.linkFile s d ∉
        (Core.link_phase env links host staging_dir dry_run copy).2) := by
  constructor
  · rintro ⟨hc, hh⟩
    have heq : Core.link_phase env links host staging_dir dry_run copy =
        Core.execute_links env links dry_run := by
      simp [Core.link_phase, hc, hh]
    refine ⟨heq, fun hd => ?_⟩
    rw [heq, hd]
    exact Core.execute_links_map env links
  · intro hn
    have hcond : (!copy && (host == "")) = false := by
      cases copy
      · have hh : host ≠ "" := fun he => hn ⟨rfl, he⟩
        simp [hh]
      · simp
    have heq : Core.link_phase env links host staging_dir dry_run copy =
        Core.execute_copies env links host staging_dir dry_run := by
      simp only [Core.link_phase, hcond]
      simp
    refine ⟨heq, fun s d => ?_⟩
    rw [heq]
    exact Core.execute_copies_no_link env links host staging_dir dry_run s d

/-- Witness for C8 at concrete inputs: local execution without the override
creates symlink actions; a remote host routes the same entries through the
copy executor with no symlink action. -/
theorem claim8_witness :
    (Core.link_phase ⟨fun _ => true, true, "/t", true⟩ [⟨"a", "b"⟩] "" "/t"
        false false =
      Core.execute_links ⟨fun _ => true, true, "/t", true⟩ [⟨"a", "b"⟩] false) ∧
    ((Core.link_phase ⟨fun _ => true, true, "/t", true⟩ [⟨"a", "b"⟩] "" "/t"
        false false).2 = [Core.Action.linkFile "a" "b"]) ∧
    (Core.link_phase ⟨fun _ => true, true, "/t", true⟩ [⟨"a", "b"⟩] "h" "/t"
        false false =
      Core.execute_copies ⟨fun _ => true, true, "/t", true⟩ [⟨"a", "b"⟩] "h" "/t"
        false) := by
  have h1 := (claim8_link_mode ⟨fun _ => true, true, "/t", true⟩ [⟨"a", "b"⟩]
    "" "/t" false false).1 ⟨rfl, rfl⟩
  have h2 := (claim8_link_mode ⟨fun _ => true, true, "/t", true⟩ [⟨"a", "b"⟩]
    "h" "/t" false false).2 (by simp)
  exact ⟨h1.1, h1.2 rfl, h2.1⟩

namespace Ssh

theorem send_dir_ok (env : TransferEnv) (src : String) (items : List String)
    (dst host : String)
    (h : ∀ it ∈ items, env.scp (src ++ "/" ++ it) dst host = 0) :
    send_dir env src items dst host =
      (Except.ok (), items.map (fun it => (src ++ "/" ++ it, dst))) := by
  induction items with
  | nil => rfl
  | cons it rest ih =>
    have h0 := h it (List.mem_cons_self it rest)
    simp only [send_dir, h0]
    simp [ih (fun x hx => h x (List.mem_cons_of_mem it hx))]

theorem send_dir_err (env : TransferEnv) (src : String) (pre : List String)
    (bad : String) (post : List String) (dst host : String)
    (hpre : ∀ it ∈ pre, env.scp (src ++ "/" ++ it) dst host = 0)
    (hbad : env.scp (src ++ "/" ++ bad) dst host ≠ 0) :
    (send_dir env src (pre ++ bad :: post) dst host).1 =
      Except.error ("SCP terminated unsuccessfully: exit status: " ++
        toString (env.scp (src ++ "/" ++ bad) dst host)) := by
  induction pre with
  | nil =>
    simp [send_dir, hbad]
  | cons it rest ih =>
    have h0 := hpre it (List.mem_cons_self it rest)
    simp only [List.cons_append, send_dir, h0]
    simpa using ih (fun x hx => hpre x (List.mem_cons_of_mem it hx))

end Ssh

/-- C10: the staged-transfer flush.  When every `scp` invocation succeeds
and the subtree removals succeed, each existing subtree's contents are
transferred item-by-item (one `scp` per directory entry, not one recursive
copy of the subtree itself) to the corresponding remote root (`~` for home,
`/` for root), and afterwards neither subtree exists.  When the first
failing item of the `home` subtree (or, with home transferred, of the
`root` subtree) is reached, the function returns an error naming that
transfer's exit status and the failing subtree is not deleted. -/
theorem claim10_send_staged_files (env : Ssh.TransferEnv) (sd : String)
    (s : Ssh.Staging) (host : String) :
    ((∀ it ∈ s.home.getD [], env.scp ((sd ++ "/home") ++ "/" ++ it) "~" host = 0) →
     (∀ it ∈ s.root.getD [], env.scp ((sd ++ "/root") ++ "/" ++ it) "/" host = 0) →
     env.removeOk (sd ++ "/home") = true →
     env.removeOk (sd ++ "/root") = true →
     Ssh.send_staged_files env sd s host =
       (Except.ok (), ⟨none, none⟩,
        (s.home.getD []).map (fun it => ((sd ++ "/home") ++ "/" ++ it, "~")) ++
        (s.root.getD []).map (fun it => ((sd ++ "/root") ++ "/" ++ it, "/")))) ∧
    (∀ pre bad post, s.home = some (pre ++ bad :: post) →
     (∀ it ∈ pre, env.scp ((sd ++ "/home") ++ "/" ++ it) "~" host = 0) →
     env.scp ((sd ++ "/home") ++ "/" ++ bad) "~" host ≠ 0 →
     (Ssh.send_staged_files env sd s host).1 =
       Except.error ("SCP terminated unsuccessfully: exit status: " ++
         toString (env.scp ((sd ++ "/home") ++ "/" ++ bad) "~" host)) ∧
     (Ssh.send_staged_files env sd s host).2.1.home = s.home) ∧
    (∀ pre bad post, s.root = some (pre ++ bad :: post) →
     (∀ it ∈ s.home.getD [], env.scp ((sd ++ "/home") ++ "/" ++ it) "~" host = 0) →
     env.removeOk (sd ++ "/home") = true →
     (∀ it ∈ pre, env.scp ((sd ++ "/root") ++ "/" ++ it) "/" host = 0) →
     env.scp ((sd ++ "/root") ++ "/" ++ bad) "/" host ≠ 0 →
     (Ssh.send_staged_files env sd s host).1 =
       Except.error ("SCP terminated unsuccessfully: exit status: " ++
         toString (env.scp ((sd ++ "/root") ++ "/" ++ bad) "/" host)) ∧
     (Ssh.send_staged_files env sd s host).2.1.root = s.root) := by
  refine ⟨?_, ?_, ?_⟩
  · intro hhome hroot hrm1 hrm2
    cases hh : s.home with
    | some items =>
      rw [hh] at hhome
      simp only [Option.getD_some] at hhome
      have hsd := Ssh.send_dir_ok env (sd ++ "/home") items "~" host hhome
      simp only [Ssh.send_staged_files, hh, hsd, hrm1]
      cases hr : s.root with
      | some ritems =>
        rw [hr] at hroot
        simp only [Option.getD_some] at hroot
        have hsd2 := Ssh.send_dir_ok env (sd ++ "/root") ritems "/" host hroot
        simp [Ssh.send_staged_root, hr, hsd2, hrm2, hh]
      | none =>
        simp [Ssh.send_staged_root, hr, hh]
    | none =>
      simp only [Ssh.send_staged_files, hh]
      cases hr : s.root with
      | some ritems =>
        rw [hr] at hroot
        simp only [Option.getD_some] at hroot
        have hsd2 := Ssh.send_dir_ok env (sd ++ "/root") ritems "/" host hroot
        simp [Ssh.send_staged_root, hr, hsd2, hrm2, hh]
      | none =>
        simp only [Ssh.send_staged_root, hr]
        cases s
        simp_all
  · intro pre bad post hh hpre hbad
    have herr := Ssh.send_dir_err env (sd ++ "/home") pre bad post "~" host hpre hbad
    simp only [Ssh.send_staged_files, hh]
    cases hsd : Ssh.send_dir env (sd ++ "/home") (pre ++ bad :: post) "~" host with
    | mk r1 r2 =>
      rw [hsd] at herr
      simp only at herr
      simp [herr, hh]
  · intro pre bad post hr hhome hrm1 hpre hbad
    have herr := Ssh.send_dir_err env (sd ++ "/root") pre bad post "/" host hpre hbad
    have hrootfail : (Ssh.send_staged_root env sd { s with home := none } host).1 =
          Except.error ("SCP terminated unsuccessfully: exit status: " ++
            toString (env.scp ((sd ++ "/root") ++ "/" ++ bad) "/" host)) ∧
        (Ssh.send_staged_root env sd { s with home := none } host).2.1.root = s.root := by
      simp only [Ssh.send_staged_root, hr]
      cases hsd2 : Ssh.send_dir env (sd ++ "/root") (pre ++ bad :: post) "/" host with
      | mk r1 r2 =>
        rw [hsd2] at herr
        simp only at herr
        simp [herr, hr]
    have hrootfail' : (Ssh.send_staged_root env sd s host).1 =
          Except.error ("SCP terminated unsuccessfully: exit status: " ++
            toString (env.scp ((sd ++ "/root") ++ "/" ++ bad) "/" host)) ∧
        (Ssh.send_staged_root env sd s host).2.1.root = s.root := by
      simp only [Ssh.send_staged_root, hr]
      cases hsd2 : Ssh.send_dir env (sd ++ "/root") (pre ++ bad :: post) "/" host with
      | mk r1 r2 =>
        rw [hsd2] at herr
        simp only at herr
        simp [herr, hr]
    cases hh : s.home with
    | some items =>
      rw [hh] at hhome
      simp only [Option.getD_some] at hhome
      have hsd := Ssh.send_dir_ok env (sd ++ "/home") items "~" host hhome
      simp only [Ssh.send_staged_files, hh, hsd, hrm1]
      simp [hrootfail.1, hrootfail.2]
    | none =>
      simp only [Ssh.send_staged_files, hh]
      exact hrootfail'

/-- Witness for C10 at a concrete input: both subtrees exist, every transfer
succeeds, the contents go item-by-item to `~` and `/`, and both subtrees are
deleted. -/
theorem claim10_witness :
    Ssh.send_staged_files ⟨fun _ _ _ => 0, fun _ => true⟩ "/t" ⟨some ["f"], some ["g"]⟩ "h" =
      (Except.ok (), ⟨none, none⟩,
       [(("/t" ++ "/home") ++ "/" ++ "f", "~"), (("/t" ++ "/root") ++ "/" ++ "g", "/")]) :=
  (claim10_send_staged_files ⟨fun _ _ _ => 0, fun _ => true⟩ "/t"
    ⟨some ["f"], some ["g"]⟩ "h").1
    (fun _ _ => rfl) (fun _ _ => rfl) rfl rfl

/-- C9 is contradicted by the code: with home `/h/u`, the source `/h/u/foo`
and the destination `~/foo` resolve to the same filesystem entry, yet both
`copy_file` and `link_file` delete the file and return an error instead of
being a no-op.  The same-entry guard compares `absolute(src)` with
`absolute(dst)` before tilde expansion, so the tilde-aliased destination
escapes it; `prepare_path` then removes the (shared) entry and the
subsequent read of the now-deleted source fails. -/
theorem claim9_same_entry_bug :
    LocalFs.lookup LocalFs.fs0 (Ssh.parsePath "/h/u/foo").comps =
      some (LocalFs.Node.file "data") ∧
    (LocalFs.copy_file LocalFs.fs0 "/h/u/foo" "~/foo").1 = Except.error () ∧
    LocalFs.lookup (LocalFs.copy_file LocalFs.fs0 "/h/u/foo" "~/foo").2
      (Ssh.parsePath "/h/u/foo").comps = none ∧
    (LocalFs.link_file LocalFs.fs0 "/h/u/foo" "~/foo").1 = Except.error () ∧
    LocalFs.lookup (LocalFs.link_file LocalFs.fs0 "/h/u/foo" "~/foo").2
      (Ssh.parsePath "/h/u/foo").comps = none := by
  refine ⟨rfl, rfl, rfl, rfl, rfl⟩
